import Mathlib

/-!
Shallow embedding of the porting-status scripts of this repository:
path mapping (analyze_porting_status.py), structural test indexing
(extract-indoor-builder-tests.py) and diff reporting
(generate-remaining-tests.py).  Text is modelled as Lean String, with
character-level helpers mirroring the Python string and regex operations
used by the scripts (ASCII interpretation of the whitespace and word
character classes).  A Python IndexError is modelled as Option.none.
-/

/-- Python str.split on a dot, at the character-list level.  Splitting the
empty text gives one empty piece, as in Python. -/
def splitCharsDot : List Char → List (List Char)
  | [] => [[]]
  | c :: rest =>
    let r := splitCharsDot rest
    if c == '.' then [] :: r
    else
      match r with
      | [] => [[c]]
      | h :: t => (c :: h) :: t

/-- Python str.split on a dot, for String. -/
def pySplitDot (s : String) : List String := (splitCharsDot s.data).map String.mk

/-- Boolean prefix test on character lists, mirroring Python str.startswith. -/
def listStartsWith : List Char → List Char → Bool
  | [], _ => true
  | _ :: _, [] => false
  | a :: as, b :: bs => a == b && listStartsWith as bs

/-- Python str.startswith for String. -/
def pyStartsWith (pre s : String) : Bool := listStartsWith pre.data s.data

/-- Python slicing that removes the first n characters of a string. -/
def pyDrop (n : Nat) (s : String) : String := String.mk (s.data.drop n)

/-- Python str.upper, restricted to the ASCII letters the scripts use. -/
def pyUpper (s : String) : String := String.mk (s.data.map Char.toUpper)

/-- Helper for pyTitle: the Bool records whether the previous character was
alphabetic. -/
def pyTitleAux : List Char → Bool → List Char
  | [], _ => []
  | c :: cs, prevAlpha =>
    if c.isAlpha then
      (if prevAlpha then c.toLower else c.toUpper) :: pyTitleAux cs true
    else c :: pyTitleAux cs false

/-- Python str.title: each alphabetic character is upper-cased when the
preceding character is not alphabetic and lower-cased otherwise. -/
def pyTitle (s : String) : String := String.mk (pyTitleAux s.data false)

/-- Python str.join with a separator, on a list of strings. -/
def pyJoin (sep : String) : List String → String
  | [] => ""
  | [x] => x
  | x :: y :: xs => x ++ sep ++ pyJoin sep (y :: xs)

/-- The tail of map_python_to_csharp after the root-prefix handling
(analyze_porting_status.py lines 42-54).  The unguarded parts[2] access of
the source is modelled by the explicit bounds check returning none, which
stands for the IndexError the Python code raises there. -/
def mapAfterStrip (python_path : String) : Option String :=
  let parts := pySplitDot python_path
  if 1 < parts.length ∧ parts.getD 0 "" = "resource" ∧ parts.getD 1 "" = "formats" then
    if 2 < parts.length then
      let format_name := pyUpper (parts.getD 2 "")
      if 3 < parts.length then
        some ("Formats." ++ format_name ++ "." ++ pyJoin "." (parts.drop 3))
      else
        some ("Formats." ++ format_name)
    else
      none
  else
    some (pyJoin "." (parts.map pyTitle))

/-- map_python_to_csharp of analyze_porting_status.py (lines 33-54): strip a
pykotor root prefix, short-circuit a utility prefix, then apply the format
and generic rules. -/
def map_python_to_csharp (python_path : String) : Option String :=
  if pyStartsWith "pykotor." python_path then
    mapAfterStrip (pyDrop 8 python_path)
  else if pyStartsWith "utility." python_path then
    some ("Utility." ++ pyDrop 8 python_path)
  else
    mapAfterStrip python_path

example : map_python_to_csharp "resource.formats.gff" = some "Formats.GFF" := by decide
example : map_python_to_csharp "pykotor.resource.formats.gff.io" = some "Formats.GFF.io" := by decide
example : map_python_to_csharp "utility.io.stream" = some "Utility.io.stream" := by decide
example : map_python_to_csharp "resource.formats" = none := by decide
example : map_python_to_csharp "common.stream" = some "Common.Stream" := by decide

/-- The whitespace class of the Python regex escape in the scripts, read over
ASCII: space, tab, newline, carriage return, vertical tab, form feed. -/
def isPySpace (c : Char) : Bool :=
  c == ' ' || c == '\t' || c == '\n' || c == '\r' || c == '\x0b' || c == '\x0c'

/-- The word-character class of the Python regex escape, read over ASCII:
letters, digits and the underscore. -/
def isWordChar (c : Char) : Bool := c.isAlphanum || c == '_'

/-- Length of the maximal run of characters satisfying p at the head of a
list; the greedy consumption step of the regex scanners. -/
def runLen (p : Char → Bool) (cs : List Char) : Nat := (cs.takeWhile p).length

/-- One attempted match of the test-function declaration regex of
extract-indoor-builder-tests.py (line 22) at a line-start position: one or
more whitespace characters, the literal declaration keyword, a name that is
the test prefix followed by at least one word character, then the
parenthesised parameter text (characters other than a closing parenthesis)
and a colon.  Returns the captured name, the captured parameter text and the
length of the whole match. -/
def tryTestMatch (cs : List Char) : Option (String × String × Nat) :=
  let w := runLen isPySpace cs
  if w = 0 then none else
  let cs1 := cs.drop w
  if listStartsWith ['d', 'e', 'f', ' ', 't', 'e', 's', 't', '_'] cs1 then
    let cs2 := cs1.drop 9
    let u := runLen isWordChar cs2
    if u = 0 then none else
    let nameChars := cs2.takeWhile isWordChar
    match cs2.drop u with
    | '(' :: cs4 =>
      let v := runLen (fun c => !(c == ')')) cs4
      let ps := cs4.takeWhile (fun c => !(c == ')'))
      match cs4.drop v with
      | ')' :: ':' :: _ =>
        some (String.mk ('t' :: 'e' :: 's' :: 't' :: '_' :: nameChars),
              String.mk ps, w + 9 + u + 1 + v + 2)
      | _ => none
    | _ => none
  else none

/-- The finditer loop for the test-function regex: positions are tried left
to right, a match may only begin at a line start, and scanning resumes just
after each match.  The fuel argument bounds the recursion and is at least
the text length at every call. -/
def scanTestsAux : Nat → List Char → Nat → Bool → List (Nat × String × String)
  | 0, _, _, _ => []
  | _ + 1, [], _, _ => []
  | fuel + 1, c :: rest, pos, false => scanTestsAux fuel rest (pos + 1) (c == '\n')
  | fuel + 1, c :: rest, pos, true =>
    match tryTestMatch (c :: rest) with
    | some (name, ps, len) =>
      (pos, name, ps) :: scanTestsAux fuel ((c :: rest).drop len) (pos + len) false
    | none => scanTestsAux fuel rest (pos + 1) (c == '\n')

/-- All test-function matches of a source text, with their offsets, as in
extract-indoor-builder-tests.py lines 21-23. -/
def scanTests (content : String) : List (Nat × String × String) :=
  scanTestsAux (content.data.length + 1) content.data 0 true

/-- One attempted match of the class declaration regex of
extract-indoor-builder-tests.py (line 17) at a line-start position: the
literal class keyword, a name that begins with the Test marker followed by
at least one word character, then a colon. -/
def tryClassMatch (cs : List Char) : Option (String × Nat) :=
  if listStartsWith ['c', 'l', 'a', 's', 's', ' ', 'T', 'e', 's', 't'] cs then
    let cs1 := cs.drop 10
    let u := runLen isWordChar cs1
    if u = 0 then none else
    match cs1.drop u with
    | ':' :: _ =>
      some (String.mk ('T' :: 'e' :: 's' :: 't' :: cs1.takeWhile isWordChar), 10 + u + 1)
    | _ => none
  else none

/-- The finditer loop for the class regex, as for scanTestsAux. -/
def scanClassesAux : Nat → List Char → Nat → Bool → List (Nat × String)
  | 0, _, _, _ => []
  | _ + 1, [], _, _ => []
  | fuel + 1, c :: rest, pos, false => scanClassesAux fuel rest (pos + 1) (c == '\n')
  | fuel + 1, c :: rest, pos, true =>
    match tryClassMatch (c :: rest) with
    | some (name, len) =>
      (pos, name) :: scanClassesAux fuel ((c :: rest).drop len) (pos + len) false
    | none => scanClassesAux fuel rest (pos + 1) (c == '\n')

/-- All class declaration matches of a source text, with their offsets, as
in extract-indoor-builder-tests.py lines 16-18. -/
def scanClasses (content : String) : List (Nat × String) :=
  scanClassesAux (content.data.length + 1) content.data 0 true

/-- The while loop of extract-indoor-builder-tests.py lines 30-34: advance
the class cursor while the next class exists and starts before the test.
The fuel argument is the class count at every call, which bounds the number
of possible advances. -/
def advanceIdx (classes : List (Nat × String)) (t : Nat) : Nat → Nat → Nat
  | idx, 0 => idx
  | idx, fuel + 1 =>
    if idx + 1 < classes.length ∧ (classes.getD (idx + 1) (0, "")).1 < t then
      advanceIdx classes t (idx + 1) fuel
    else idx

/-- The grouping loop of extract-indoor-builder-tests.py lines 26-40: for
each test in order, advance the shared cursor, then attach the class at the
cursor, or the sentinel when the cursor is out of range. -/
def groupTestsAux (classes : List (Nat × String)) : Nat → List (Nat × String × String) → List (String × String × String)
  | _, [] => []
  | idx, (t, n, p) :: rest =>
    let j := advanceIdx classes t idx classes.length
    let cname := if j < classes.length then (classes.getD j (0, "")).2 else "Unknown"
    (cname, n, p) :: groupTestsAux classes j rest

/-- extract_tests of extract-indoor-builder-tests.py (lines 11-42): scan for
classes and tests, then group the tests by the cursor merge. -/
def extract_tests (content : String) : List (String × String × String) :=
  groupTestsAux (scanClasses content) 0 (scanTests content)

example :
    scanTests "    def test_a(self):\nclass TestFoo:\n    def test_b(self):\n" =
      [(0, "test_a", "self"), (37, "test_b", "self")] := by decide
example :
    scanClasses "    def test_a(self):\nclass TestFoo:\n    def test_b(self):\n" =
      [(22, "TestFoo")] := by decide
example :
    extract_tests "    def test_a(self):\nclass TestFoo:\n    def test_b(self):\n" =
      [("TestFoo", "test_a", "self"), ("TestFoo", "test_b", "self")] := by decide
example : scanTests "def test_x():" = [] := by decide
example : scanTests "\ndef test_x():" = [(0, "test_x", "")] := by decide
example : extract_tests "x = 1\n    def test_a(self):\n" = [("Unknown", "test_a", "self")] := by decide

/-- Python str.strip: remove whitespace from both ends. -/
def pyStrip (s : String) : String :=
  String.mk (((s.data.dropWhile isPySpace).reverse.dropWhile isPySpace).reverse)

/-- Python split on a newline, keeping only the first piece, as in the
docstring handling of generate-remaining-tests.py line 31. -/
def firstLine (s : String) : String :=
  String.mk (s.data.takeWhile (fun c => !(c == '\n')))

/-- Whether a whitespace run can be split as required by the documentation
part of the regex of generate-remaining-tests.py line 26: some newline must
occur with at least one further whitespace character after it. -/
def hasInnerNewline (wrun : List Char) : Bool := wrun.dropLast.contains '\n'

/-- One attempted match of the documented-test regex of
generate-remaining-tests.py (line 26) at a line-start position: the test
declaration as in tryTestMatch, then whitespace containing a newline with at
least one whitespace character after it, then a triple-quoted documentation
block whose body has no double quote.  Returns the name, the doc field
(first line of the stripped body, line 31) and the match length. -/
def tryDocTestMatch (cs : List Char) : Option (String × String × Nat) :=
  let w := runLen isPySpace cs
  if w = 0 then none else
  let cs1 := cs.drop w
  if listStartsWith ['d', 'e', 'f', ' ', 't', 'e', 's', 't', '_'] cs1 then
    let cs2 := cs1.drop 9
    let u := runLen isWordChar cs2
    if u = 0 then none else
    let nameChars := cs2.takeWhile isWordChar
    match cs2.drop u with
    | '(' :: cs4 =>
      let v := runLen (fun c => !(c == ')')) cs4
      match cs4.drop v with
      | ')' :: ':' :: cs5 =>
        let b := runLen isPySpace cs5
        if hasInnerNewline (cs5.takeWhile isPySpace) then
          match cs5.drop b with
          | '"' :: '"' :: '"' :: cs6 =>
            let d := cs6.takeWhile (fun c => !(c == '"'))
            match cs6.drop d.length with
            | '"' :: '"' :: '"' :: _ =>
              some (String.mk ('t' :: 'e' :: 's' :: 't' :: '_' :: nameChars),
                    firstLine (pyStrip (String.mk d)),
                    w + 9 + u + 1 + v + 2 + b + 3 + d.length + 3)
            | _ => none
          | _ => none
        else none
      | _ => none
    | _ => none
  else none

/-- The finditer loop for the documented-test regex of
generate-remaining-tests.py lines 25-32; entries record name and doc only,
as in the source. -/
def pythonTestsAux : Nat → List Char → Bool → List (String × String)
  | 0, _, _ => []
  | _ + 1, [], _ => []
  | fuel + 1, c :: rest, false => pythonTestsAux fuel rest (c == '\n')
  | fuel + 1, c :: rest, true =>
    match tryDocTestMatch (c :: rest) with
    | some (name, doc, len) => (name, doc) :: pythonTestsAux fuel ((c :: rest).drop len) false
    | none => pythonTestsAux fuel rest (c == '\n')

/-- python_tests of generate-remaining-tests.py (lines 24-32): the indexed
(name, doc) entries of the origin test text. -/
def python_tests (content : String) : List (String × String) :=
  pythonTestsAux (content.data.length + 1) content.data true

/-- One attempted match of the provenance-marker regex of
generate-remaining-tests.py (line 35): the literal marker comment, then a
name that is the test prefix followed by at least one word character, then
an opening parenthesis. -/
def tryMarkerMatch (cs : List Char) : Option (String × Nat) :=
  if listStartsWith ['/', '/', ' ', 'O', 'r', 'i', 'g', 'i', 'n', 'a', 'l', ':', ' ',
      'd', 'e', 'f', ' ', 't', 'e', 's', 't', '_'] cs then
    let cs1 := cs.drop 22
    let u := runLen isWordChar cs1
    if u = 0 then none else
    match cs1.drop u with
    | '(' :: _ =>
      some (String.mk ('t' :: 'e' :: 's' :: 't' :: '_' :: cs1.takeWhile isWordChar), 22 + u + 1)
    | _ => none
  else none

/-- The findall loop for the marker regex: the pattern has no anchor, so
every position is tried. -/
def scanMarkersAux : Nat → List Char → List String
  | 0, _ => []
  | _ + 1, [] => []
  | fuel + 1, c :: rest =>
    match tryMarkerMatch (c :: rest) with
    | some (name, len) => name :: scanMarkersAux fuel ((c :: rest).drop len)
    | none => scanMarkersAux fuel rest

/-- All provenance-marker names of the ported source text, in order and with
duplicates, as findall returns them. -/
def scanMarkers (content : String) : List String :=
  scanMarkersAux (content.data.length + 1) content.data

/-- The ported set of generate-remaining-tests.py line 35: the marker names
as a set.  The Python set is modelled by a deduplicated list, which has the
same membership and the same cardinality. -/
def ported (csharp : String) : List String := (scanMarkers csharp).dedup

/-- The missing list of generate-remaining-tests.py line 38: entries whose
name is not a member of the ported set, in input order. -/
def missing (entries : List (String × String)) (portedNames : List String) :
    List (String × String) :=
  entries.filter (fun e => !(portedNames.contains e.1))

/-- The report of generate-remaining-tests.py lines 40-42 as a value: total
entry count, ported set size, missing list. -/
def diff (entries : List (String × String)) (csharp : String) :
    Nat × Nat × List (String × String) :=
  (entries.length, (ported csharp).length, missing entries (ported csharp))

/-- The fixed origin path of extract-indoor-builder-tests.py line 47. -/
def originPath : String :=
  "vendor/PyKotor/Tools/HolocronToolset/tests/gui/windows/test_indoor_builder.py"

/-- Right-aligned width-3 decimal of the report lines of
extract-indoor-builder-tests.py line 57. -/
def formatIndex (i : Nat) : String :=
  let s := toString i
  if s.length = 1 then "  " ++ s else if s.length = 2 then " " ++ s else s

/-- The numbered listing of extract-indoor-builder-tests.py lines 56-57,
with indices starting at one. -/
def numberFrom : Nat → List (String × String × String) → List String
  | _, [] => []
  | i, (c, n, _) :: rest => (formatIndex i ++ ". " ++ c ++ "::" ++ n) :: numberFrom (i + 1) rest

/-- The standard-output lines printed by the extract entry point on success
(extract-indoor-builder-tests.py lines 53-57), one element per print call. -/
def reportLines (tests : List (String × String × String)) : List String :=
  ("Total tests: " ++ toString tests.length) :: "\nTest list:" :: numberFrom 1 tests

/-- The entry point of extract-indoor-builder-tests.py (lines 45-57) as a
function of the input-file state: the result is the printed standard-output
lines, the printed error-stream lines, and the exit code. -/
def mainExtract (fileExists : Bool) (content : String) :
    List String × List String × Nat :=
  if fileExists then (reportLines (extract_tests content), [], 0)
  else ([], ["Error: " ++ originPath ++ " not found"], 1)

example :
    python_tests "    def test_a(self):\n        \"\"\"Does a thing.\nMore.\"\"\"\n" =
      [("test_a", "Does a thing.")] := by decide
example : python_tests "    def test_a(self):\n        pass\n" = [] := by decide
example : scanMarkers "// Original: def test_bar(\n// Original: def test_bar(\n" =
    ["test_bar", "test_bar"] := by decide
example : scanMarkers "// Original: def helper_foo(" = [] := by decide
example :
    diff [("test_bar", "a"), ("test_baz", "b")]
      "// Original: def test_bar(\n// Original: def test_bar(\n" =
    (2, 1, [("test_baz", "b")]) := by decide
example : python_tests "\ndef test_x():\n \"\"\"Doc\"\"\"" = [("test_x", "Doc")] := by decide

/-- Splitting a filter by a Bool predicate and its negation preserves the
total length. -/
theorem filterSplitLen {α : Type} (p : α → Bool) (l : List α) :
    (l.filter (fun a => !(p a))).length + (l.filter p).length = l.length := by
  induction l with
  | nil => rfl
  | cons a l ih => cases h : p a <;> simp [List.filter_cons, h] <;> omega

/-- C1: the Path Mapper is claimed total on every non-empty segment
sequence, in particular on the two-segment path resource.formats; the code
instead evaluates parts[2] under a guard that only checks for two or more
segments, so both resource.formats and its pykotor-rooted form hit an index
error, modelled here as none. -/
theorem map_python_to_csharp_index_error :
    map_python_to_csharp "resource.formats" = none ∧
    map_python_to_csharp "pykotor.resource.formats" = none := by
  exact ⟨by decide, by decide⟩

/-- C3 counterexample: a test declaration that the function lexical pattern
of the indexer matches (as the plain scan shows) but that has no
documentation block yields no entry at all in python_tests, rather than an
entry with an empty doc field. -/
theorem python_tests_no_doc_counterexample :
    scanTests "    def test_a(self):\n        pass\n" = [(0, "test_a", "self")] ∧
    python_tests "    def test_a(self):\n        pass\n" = [] := by
  exact ⟨by decide, by decide⟩

/-- C3 amended: in generate-remaining-tests.py the documentation block is a
mandatory part of the pattern, so a test declaration without one yields no
entry (and no error), while a declaration with one yields an entry whose doc
field is the first line of the stripped docstring. -/
theorem python_tests_requires_doc :
    python_tests "    def test_a(self):\n        pass\n" = [] ∧
    python_tests "    def test_a(self):\n        \"\"\"Does a thing.\nMore.\"\"\"\n" =
      [("test_a", "Does a thing.")] := by
  exact ⟨by decide, by decide⟩

/-- C4: the missing list is exactly the in-order sublist of entries whose
name is not in the ported set, every entry lands in exactly one of the
missing and matched parts, and the missing length is the total minus the
matched count. -/
theorem diff_missing_partition (entries : List (String × String)) (csharp : String) :
    missing entries (ported csharp) =
      entries.filter (fun e => !((ported csharp).contains e.1)) ∧
    (missing entries (ported csharp)).length +
      (entries.filter (fun e => (ported csharp).contains e.1)).length = entries.length ∧
    (missing entries (ported csharp)).length =
      entries.length - (entries.filter (fun e => (ported csharp).contains e.1)).length ∧
    (missing entries (ported csharp)).Sublist entries := by
  refine ⟨rfl, filterSplitLen _ _, ?_, List.filter_sublist _⟩
  have h := filterSplitLen (fun e => (ported csharp).contains e.1) entries
  simp only [missing]
  omega

/-- C5: the reported total is the entry count and the reported ported count
is the cardinality of the marker set, with duplicate markers collapsing to a
single membership; on a ported text with two identical markers for test_bar
and entries test_bar and test_baz the result is total two, ported one,
missing only test_baz. -/
theorem diff_counts_spec :
    (∀ (entries : List (String × String)) (csharp : String),
      (diff entries csharp).1 = entries.length ∧
      (diff entries csharp).2.1 = ((scanMarkers csharp).dedup).length ∧
      ((scanMarkers csharp).dedup).Nodup ∧
      (∀ n, n ∈ (scanMarkers csharp).dedup ↔ n ∈ scanMarkers csharp)) ∧
    scanMarkers "// Original: def test_bar(\n// Original: def test_bar(\n" =
      ["test_bar", "test_bar"] ∧
    diff [("test_bar", "a"), ("test_baz", "b")]
        "// Original: def test_bar(\n// Original: def test_bar(\n" =
      (2, 1, [("test_baz", "b")]) := by
  refine ⟨fun entries csharp =>
    ⟨rfl, rfl, List.nodup_dedup _, fun n => List.mem_dedup⟩, by decide, by decide⟩

/-- C8: when the required origin file is missing, the extract entry point
prints nothing to standard output, reports a diagnostic naming the missing
path on the error stream, and exits with code one. -/
theorem main_missing_file_behavior (content : String) :
    mainExtract false content =
      ([],
       ["Error: vendor/PyKotor/Tools/HolocronToolset/tests/gui/windows/test_indoor_builder.py not found"],
       1) := by
  rfl

/-- C6: on a prefix-stripped path whose first two segments are resource and
formats and which has a third segment, the mapper returns the fixed Formats
top segment, the upper-cased third segment, and any further segments
appended verbatim, joined by the separator. -/
theorem mapAfterStrip_formats_rule (s : String)
    (h3 : 3 ≤ (pySplitDot s).length)
    (h0 : (pySplitDot s).getD 0 "" = "resource")
    (h1 : (pySplitDot s).getD 1 "" = "formats") :
    mapAfterStrip s =
      some (pyJoin "."
        ("Formats" :: pyUpper ((pySplitDot s).getD 2 "") :: (pySplitDot s).drop 3)) := by
  simp only [mapAfterStrip]
  rw [if_pos ⟨by omega, h0, h1⟩, if_pos (show 2 < (pySplitDot s).length by omega)]
  by_cases h4 : 3 < (pySplitDot s).length
  · rw [if_pos h4]
    have hd : ∃ z zs, (pySplitDot s).drop 3 = z :: zs := by
      cases hcase : (pySplitDot s).drop 3 with
      | nil =>
        have := List.length_drop 3 (pySplitDot s)
        rw [hcase] at this
        simp at this
        omega
      | cons z zs => exact ⟨z, zs, rfl⟩
    obtain ⟨z, zs, hz⟩ := hd
    rw [hz]
    simp only [pyJoin]
    congr 1
  · rw [if_neg h4]
    have hz : (pySplitDot s).drop 3 = [] := by
      apply List.drop_eq_nil_of_le
      omega
    rw [hz]
    simp only [pyJoin]
    congr 1

/-- C6 witness: the theorem applied to resource.formats.gff, whose image is
the two-level path Formats.GFF, also through the full mapper. -/
theorem mapAfterStrip_formats_rule_witness :
    3 ≤ (pySplitDot "resource.formats.gff").length ∧
    (pySplitDot "resource.formats.gff").getD 0 "" = "resource" ∧
    (pySplitDot "resource.formats.gff").getD 1 "" = "formats" ∧
    mapAfterStrip "resource.formats.gff" = some "Formats.GFF" ∧
    map_python_to_csharp "resource.formats.gff" = some "Formats.GFF" :=
  ⟨by decide, by decide, by decide,
   (mapAfterStrip_formats_rule "resource.formats.gff" (by decide) (by decide)
     (by decide)).trans (by decide),
   by decide⟩

/-- C7: on a path whose first segment is the utility prefix, the mapper
strips it and returns the fixed Utility top segment followed by the
remaining text entirely unchanged; in particular utility.io.stream maps to
Utility.io.stream. -/
theorem map_utility_rule :
    (∀ rest : String,
      map_python_to_csharp ("utility." ++ rest) = some ("Utility." ++ rest)) ∧
    map_python_to_csharp "utility.io.stream" = some "Utility.io.stream" := by
  refine ⟨?_, by decide⟩
  intro rest
  obtain ⟨l⟩ := rest
  rfl

/-- A successful marker match captures the test prefix followed by a
non-empty run of word characters. -/
theorem tryMarkerMatch_shape {cs : List Char} {r : String × Nat}
    (h : tryMarkerMatch cs = some r) :
    ∃ u : List Char, r.1 = String.mk ('t' :: 'e' :: 's' :: 't' :: '_' :: u) ∧
      u ≠ [] ∧ u.all isWordChar = true := by
  simp only [tryMarkerMatch] at h
  split at h
  · by_cases hrun : runLen isWordChar (cs.drop 22) = 0
    · rw [if_pos hrun] at h
      exact absurd h (by simp)
    · rw [if_neg hrun] at h
      split at h
      · obtain rfl := Option.some.inj h
        refine ⟨(cs.drop 22).takeWhile isWordChar, rfl, ?_, List.all_takeWhile⟩
        intro hnil
        exact hrun (by simp [runLen, hnil])
      · exact absurd h (by simp)
  · exact absurd h (by simp)

/-- Every name produced by the marker findall loop has the captured shape. -/
theorem scanMarkersAux_shape : ∀ (fuel : Nat) (cs : List Char) (m : String),
    m ∈ scanMarkersAux fuel cs →
    ∃ u : List Char, m = String.mk ('t' :: 'e' :: 's' :: 't' :: '_' :: u) ∧
      u ≠ [] ∧ u.all isWordChar = true := by
  intro fuel
  induction fuel with
  | zero => intro cs m h; simp [scanMarkersAux] at h
  | succ fuel ih =>
    intro cs m h
    cases cs with
    | nil => simp [scanMarkersAux] at h
    | cons c rest =>
      rw [scanMarkersAux] at h
      cases hm : tryMarkerMatch (c :: rest) with
      | some r =>
        obtain ⟨name, len⟩ := r
        rw [hm] at h
        rcases List.mem_cons.mp h with h1 | h2
        · subst h1
          exact tryMarkerMatch_shape hm
        · exact ih _ _ h2
      | none =>
        rw [hm] at h
        exact ih _ _ h

/-- C10: the marker scan recovers only names that are the test prefix
followed by one or more word characters; a provenance comment whose name
has a different shape contributes nothing to the marker list, hence nothing
to the ported set, its count, or any membership test. -/
theorem scanMarkers_shape :
    (∀ (content : String) (m : String), m ∈ scanMarkers content →
      ∃ u : List Char, m = String.mk ('t' :: 'e' :: 's' :: 't' :: '_' :: u) ∧
        u ≠ [] ∧ u.all isWordChar = true) ∧
    scanMarkers "// Original: def helper_foo(" = [] ∧
    scanMarkers "// Original: def test_a-b(" = [] ∧
    ported "// Original: def helper_foo(" = [] := by
  exact ⟨fun content m h => scanMarkersAux_shape _ _ m h, by decide, by decide, by decide⟩

/-- C10 witness: the shape theorem applied to a concrete marker text in
which test_foo is recovered. -/
theorem scanMarkers_shape_witness :
    "test_foo" ∈ scanMarkers "// Original: def test_foo(" ∧
    ∃ u : List Char, "test_foo" = String.mk ('t' :: 'e' :: 's' :: 't' :: '_' :: u) ∧
      u ≠ [] ∧ u.all isWordChar = true :=
  ⟨by decide, scanMarkers_shape.1 "// Original: def test_foo(" "test_foo" (by decide)⟩

/-- A successful test match starts with a whitespace character. -/
theorem tryTestMatch_head_space {c : Char} {rest : List Char}
    {r : String × String × Nat} (h : tryTestMatch (c :: rest) = some r) :
    isPySpace c = true := by
  by_cases hc : isPySpace c = true
  · exact hc
  · exfalso
    have hw : runLen isPySpace (c :: rest) = 0 := by
      simp [runLen, List.takeWhile_cons, hc]
    simp only [tryTestMatch, hw] at h
    exact absurd h (by simp)

/-- Every offset delivered by the test finditer loop is at least the
current scanning position. -/
theorem scanTestsAux_le : ∀ (fuel : Nat) (cs : List Char) (pos : Nat) (a : Bool)
    (x : Nat × String × String), x ∈ scanTestsAux fuel cs pos a → pos ≤ x.1 := by
  intro fuel
  induction fuel with
  | zero => intro cs pos a x h; simp [scanTestsAux] at h
  | succ fuel ih =>
    intro cs pos a x h
    cases cs with
    | nil => simp [scanTestsAux] at h
    | cons c rest =>
      cases a with
      | false =>
        rw [scanTestsAux] at h
        have := ih rest (pos + 1) (c == '\n') x h
        omega
      | true =>
        rw [scanTestsAux] at h
        cases hm : tryTestMatch (c :: rest) with
        | some r =>
          obtain ⟨name, ps, len⟩ := r
          rw [hm] at h
          rcases List.mem_cons.mp h with h1 | h2
          · subst h1; exact le_refl _
          · have := ih _ _ _ x h2
            omega
        | none =>
          rw [hm] at h
          have := ih rest (pos + 1) (c == '\n') x h
          omega

/-- The character of the text at every match offset of the test finditer
loop is whitespace: the pattern consumes at least one whitespace character
before the declaration keyword. -/
theorem scanTestsAux_space : ∀ (fuel : Nat) (cs : List Char) (pos : Nat) (a : Bool)
    (x : Nat × String × String), x ∈ scanTestsAux fuel cs pos a →
    ∃ c, cs[x.1 - pos]? = some c ∧ isPySpace c = true := by
  intro fuel
  induction fuel with
  | zero => intro cs pos a x h; simp [scanTestsAux] at h
  | succ fuel ih =>
    intro cs pos a x h
    cases cs with
    | nil => simp [scanTestsAux] at h
    | cons c rest =>
      cases a with
      | false =>
        rw [scanTestsAux] at h
        have hle := scanTestsAux_le fuel rest (pos + 1) (c == '\n') x h
        obtain ⟨ch, hch, hs⟩ := ih rest (pos + 1) (c == '\n') x h
        refine ⟨ch, ?_, hs⟩
        have harith : x.1 - pos = (x.1 - (pos + 1)) + 1 := by omega
        rw [harith, List.getElem?_cons_succ]
        exact hch
      | true =>
        rw [scanTestsAux] at h
        cases hm : tryTestMatch (c :: rest) with
        | some r =>
          obtain ⟨name, ps, len⟩ := r
          rw [hm] at h
          rcases List.mem_cons.mp h with h1 | h2
          · subst h1
            refine ⟨c, ?_, tryTestMatch_head_space hm⟩
            simp
          · have hle := scanTestsAux_le fuel ((c :: rest).drop len) (pos + len) false x h2
            obtain ⟨ch, hch, hs⟩ := ih _ _ _ x h2
            refine ⟨ch, ?_, hs⟩
            rw [List.getElem?_drop] at hch
            have harith : len + (x.1 - (pos + len)) = x.1 - pos := by omega
            rw [harith] at hch
            exact hch
        | none =>
          rw [hm] at h
          have hle := scanTestsAux_le fuel rest (pos + 1) (c == '\n') x h
          obtain ⟨ch, hch, hs⟩ := ih rest (pos + 1) (c == '\n') x h
          refine ⟨ch, ?_, hs⟩
          have harith : x.1 - pos = (x.1 - (pos + 1)) + 1 := by omega
          rw [harith, List.getElem?_cons_succ]
          exact hch

/-- C9 counterexample: a declaration of the form def test_x(): at column
zero is matched by both indexing scans when a blank line precedes it,
because the whitespace class of the pattern also matches the newline. -/
theorem top_level_def_matched_counterexample :
    scanTests "\ndef test_x():" = [(0, "test_x", "")] ∧
    extract_tests "\ndef test_x():" = [("Unknown", "test_x", "")] ∧
    python_tests "\ndef test_x():\n \"\"\"Doc\"\"\"" = [("test_x", "Doc")] := by
  exact ⟨by decide, by decide, by decide⟩

/-- C9 amended: every match of the test scan begins at a whitespace
character, so a column-zero declaration at the very start of the text, or
one whose preceding line holds any non-whitespace text, is never matched;
but a column-zero declaration preceded by whitespace-only text reaching back
to a line start is matched, the whitespace class spanning the newline. -/
theorem scan_matches_start_with_whitespace :
    (∀ (content : String) (x : Nat × String × String), x ∈ scanTests content →
      ∃ c, content.data[x.1]? = some c ∧ isPySpace c = true) ∧
    scanTests "def test_x():" = [] ∧
    python_tests "def test_x():\n    \"\"\"Doc\"\"\"" = [] ∧
    scanTests "\ndef test_x():" = [(0, "test_x", "")] := by
  refine ⟨?_, by decide, by decide, by decide⟩
  intro content x h
  have hres := scanTestsAux_space (content.data.length + 1) content.data 0 true x h
  simpa using hres

/-- C9 witness: the amended theorem applied to a concrete text whose match
offset is the leading newline. -/
theorem scan_matches_start_with_whitespace_witness :
    (0, "test_x", "") ∈ scanTests "\ndef test_x():" ∧
    ∃ c, "\ndef test_x():".data[(0 : Nat)]? = some c ∧ isPySpace c = true := by
  refine ⟨by decide, ?_⟩
  have h := scan_matches_start_with_whitespace.1 "\ndef test_x():" (0, "test_x", "")
    (by decide)
  simpa using h

/-- A successful test match consumes at least one character. -/
theorem tryTestMatch_len_pos {cs : List Char} {r : String × String × Nat}
    (h : tryTestMatch cs = some r) : 1 ≤ r.2.2 := by
  simp only [tryTestMatch] at h
  split at h
  · exact absurd h (by simp)
  · split at h
    · split at h
      · exact absurd h (by simp)
      · split at h
        · split at h
          · obtain rfl := Option.some.inj h
            simp
          · exact absurd h (by simp)
        · exact absurd h (by simp)
    · exact absurd h (by simp)

/-- A successful class match consumes at least one character. -/
theorem tryClassMatch_len_pos {cs : List Char} {r : String × Nat}
    (h : tryClassMatch cs = some r) : 1 ≤ r.2 := by
  simp only [tryClassMatch] at h
  split at h
  · split at h
    · exact absurd h (by simp)
    · split at h
      · obtain rfl := Option.some.inj h
        simp
      · exact absurd h (by simp)
  · exact absurd h (by simp)

/-- The test finditer loop produces strictly increasing offsets. -/
theorem scanTestsAux_pairwise : ∀ (fuel : Nat) (cs : List Char) (pos : Nat) (a : Bool),
    (scanTestsAux fuel cs pos a).Pairwise (fun x y => x.1 < y.1) := by
  intro fuel
  induction fuel with
  | zero => intro cs pos a; simp [scanTestsAux]
  | succ fuel ih =>
    intro cs pos a
    cases cs with
    | nil => simp [scanTestsAux]
    | cons c rest =>
      cases a with
      | false =>
        rw [scanTestsAux]
        exact ih rest (pos + 1) (c == '\n')
      | true =>
        rw [scanTestsAux]
        cases hm : tryTestMatch (c :: rest) with
        | some r =>
          obtain ⟨name, ps, len⟩ := r
          refine List.Pairwise.cons ?_ (ih _ _ _)
          intro y hy
          have h1 := scanTestsAux_le fuel ((c :: rest).drop len) (pos + len) false y hy
          have h2 := tryTestMatch_len_pos hm
          simp only at h2
          omega
        | none => exact ih rest (pos + 1) (c == '\n')

/-- Every offset delivered by the class finditer loop is at least the
current scanning position. -/
theorem scanClassesAux_le : ∀ (fuel : Nat) (cs : List Char) (pos : Nat) (a : Bool)
    (x : Nat × String), x ∈ scanClassesAux fuel cs pos a → pos ≤ x.1 := by
  intro fuel
  induction fuel with
  | zero => intro cs pos a x h; simp [scanClassesAux] at h
  | succ fuel ih =>
    intro cs pos a x h
    cases cs with
    | nil => simp [scanClassesAux] at h
    | cons c rest =>
      cases a with
      | false =>
        rw [scanClassesAux] at h
        have := ih rest (pos + 1) (c == '\n') x h
        omega
      | true =>
        rw [scanClassesAux] at h
        cases hm : tryClassMatch (c :: rest) with
        | some r =>
          obtain ⟨name, len⟩ := r
          rw [hm] at h
          rcases List.mem_cons.mp h with h1 | h2
          · subst h1; exact le_refl _
          · have := ih _ _ _ x h2
            omega
        | none =>
          rw [hm] at h
          have := ih rest (pos + 1) (c == '\n') x h
          omega

/-- The class finditer loop produces strictly increasing offsets. -/
theorem scanClassesAux_pairwise : ∀ (fuel : Nat) (cs : List Char) (pos : Nat) (a : Bool),
    (scanClassesAux fuel cs pos a).Pairwise (fun x y => x.1 < y.1) := by
  intro fuel
  induction fuel with
  | zero => intro cs pos a; simp [scanClassesAux]
  | succ fuel ih =>
    intro cs pos a
    cases cs with
    | nil => simp [scanClassesAux]
    | cons c rest =>
      cases a with
      | false =>
        rw [scanClassesAux]
        exact ih rest (pos + 1) (c == '\n')
      | true =>
        rw [scanClassesAux]
        cases hm : tryClassMatch (c :: rest) with
        | some r =>
          obtain ⟨name, len⟩ := r
          refine List.Pairwise.cons ?_ (ih _ _ _)
          intro y hy
          have h1 := scanClassesAux_le fuel ((c :: rest).drop len) (pos + len) false y hy
          have h2 := tryClassMatch_len_pos hm
          simp only at h2
          omega
        | none => exact ih rest (pos + 1) (c == '\n')

/-- The last recorded class that starts strictly before a given offset, in
recorded order. -/
def lastBefore (classes : List (Nat × String)) (t : Nat) : Option (Nat × String) :=
  (classes.filter (fun c => decide (c.1 < t))).getLast?

/-- The class name the amended specification assigns to a test at offset t:
the sentinel when no class was recorded at all, the last class starting
strictly before t when there is one, and the first recorded class when the
test precedes every class. -/
def expectedClass (classes : List (Nat × String)) (t : Nat) : String :=
  match classes with
  | [] => "Unknown"
  | c0 :: _ => ((lastBefore classes t).getD c0).2

/-- Characterisation of the while loop of the grouping merge: from a valid
cursor it reaches a position that is zero or before t, with the next class
(if any) not before t. -/
theorem advanceIdx_spec (classes : List (Nat × String)) (t : Nat) :
    ∀ (fuel idx : Nat), classes.length ≤ idx + fuel + 1 →
    (idx = 0 ∨ (idx < classes.length ∧ (classes.getD idx (0, "")).1 < t)) →
    (advanceIdx classes t idx fuel = 0 ∨
      (advanceIdx classes t idx fuel < classes.length ∧
        (classes.getD (advanceIdx classes t idx fuel) (0, "")).1 < t)) ∧
    idx ≤ advanceIdx classes t idx fuel ∧
    ¬(advanceIdx classes t idx fuel + 1 < classes.length ∧
      (classes.getD (advanceIdx classes t idx fuel + 1) (0, "")).1 < t) := by
  intro fuel
  induction fuel with
  | zero =>
    intro idx hlen hP
    rw [advanceIdx]
    exact ⟨hP, le_refl _, fun hc => by omega⟩
  | succ fuel ih =>
    intro idx hlen hP
    rw [advanceIdx]
    by_cases hc : idx + 1 < classes.length ∧ (classes.getD (idx + 1) (0, "")).1 < t
    · rw [if_pos hc]
      have hrec := ih (idx + 1) (by omega) (Or.inr hc)
      exact ⟨hrec.1, by omega, hrec.2.2⟩
    · rw [if_neg hc]
      exact ⟨hP, le_refl _, hc⟩

/-- In an offset-sorted class list, when position j is the last one whose
offset is before t, the filter of classes before t ends exactly at j. -/
theorem filter_getLast_of_sorted (t : Nat) :
    ∀ (l : List (Nat × String)) (j : Nat),
    l.Pairwise (fun a b => a.1 < b.1) →
    j < l.length →
    (l.getD j (0, "")).1 < t →
    (j + 1 < l.length → ¬(l.getD (j + 1) (0, "")).1 < t) →
    (l.filter (fun c => decide (c.1 < t))).getLast? = some (l.getD j (0, "")) := by
  intro l
  induction l with
  | nil => intro j _ hj; simp at hj
  | cons c0 tl ih =>
    intro j hs hj hoff hnext
    have hhead := (List.pairwise_cons.mp hs).1
    have htl := (List.pairwise_cons.mp hs).2
    cases j with
    | zero =>
      rw [List.getD_cons_zero] at hoff ⊢
      have hfil : tl.filter (fun c => decide (c.1 < t)) = [] := by
        rw [List.filter_eq_nil_iff]
        intro y hy
        simp only [decide_eq_true_eq]
        cases tl with
        | nil => simp at hy
        | cons c1 tl2 =>
          have h1 : ¬c1.1 < t := by
            have := hnext (by simp)
            rw [List.getD_cons_succ, List.getD_cons_zero] at this
            exact this
          rcases List.mem_cons.mp hy with rfl | hmem
          · omega
          · have := (List.pairwise_cons.mp htl).1 y hmem
            omega
      rw [List.filter_cons, if_pos (by simpa using hoff), hfil]
      rfl
    | succ k =>
      rw [List.getD_cons_succ] at hoff ⊢
      have hk : k < tl.length := by simpa using hj
      have hmem : tl.getD k (0, "") ∈ tl := by
        have : tl.getD k (0, "") = tl[k] := by
          simp [List.getD_eq_getElem?_getD, List.getElem?_eq_getElem hk]
        rw [this]
        exact List.getElem_mem hk
      have hc0 : c0.1 < t := by
        have := hhead _ hmem
        omega
      have hrec := ih k htl hk hoff (by
        intro hlt
        have := hnext (by simpa using hlt)
        rw [List.getD_cons_succ] at this
        exact this)
      rw [List.filter_cons, if_pos (by simpa using hc0)]
      cases hcase : tl.filter (fun c => decide (c.1 < t)) with
      | nil => rw [hcase] at hrec; simp at hrec
      | cons z zs =>
        rw [hcase] at hrec
        rw [List.getLast?_cons_cons]
        exact hrec

/-- The class name the grouping loop selects at a stopped cursor equals the
amended-specification class for that offset. -/
theorem cursor_name_eq_expected (classes : List (Nat × String)) (t j : Nat)
    (hs : classes.Pairwise (fun a b => a.1 < b.1))
    (hP : j = 0 ∨ (j < classes.length ∧ (classes.getD j (0, "")).1 < t))
    (hstop : ¬(j + 1 < classes.length ∧ (classes.getD (j + 1) (0, "")).1 < t)) :
    (if j < classes.length then (classes.getD j (0, "")).2 else "Unknown") =
      expectedClass classes t := by
  cases classes with
  | nil =>
    rw [if_neg (by simp)]
    rfl
  | cons c0 tl =>
    have hjlt : j < (c0 :: tl).length := by
      rcases hP with rfl | ⟨h, _⟩
      · simp
      · exact h
    rw [if_pos hjlt]
    by_cases hoff : ((c0 :: tl).getD j (0, "")).1 < t
    · have hlast := filter_getLast_of_sorted t (c0 :: tl) j hs hjlt hoff
        (fun hlen hlt => hstop ⟨hlen, hlt⟩)
      simp only [expectedClass, lastBefore]
      rw [hlast]
      rfl
    · have hj0 : j = 0 := by
        rcases hP with rfl | ⟨_, h⟩
        · rfl
        · exact absurd h hoff
      subst hj0
      rw [List.getD_cons_zero] at hoff ⊢
      have hfil : (c0 :: tl).filter (fun c => decide (c.1 < t)) = [] := by
        rw [List.filter_eq_nil_iff]
        intro y hy
        simp only [decide_eq_true_eq]
        rcases List.mem_cons.mp hy with rfl | hmem
        · exact hoff
        · have := (List.pairwise_cons.mp hs).1 y hmem
          omega
      simp only [expectedClass, lastBefore]
      rw [hfil]
      rfl

/-- The grouping loop of the indexer, started at a valid cursor, assigns to
every test the amended-specification class of its offset. -/
theorem groupTestsAux_eq_expected (classes : List (Nat × String))
    (hs : classes.Pairwise (fun a b => a.1 < b.1)) :
    ∀ (tests : List (Nat × String × String)) (idx : Nat),
    tests.Pairwise (fun x y => x.1 < y.1) →
    (∀ x ∈ tests, idx = 0 ∨ (idx < classes.length ∧ (classes.getD idx (0, "")).1 < x.1)) →
    groupTestsAux classes idx tests =
      tests.map (fun x => (expectedClass classes x.1, x.2.1, x.2.2)) := by
  intro tests
  induction tests with
  | nil => intro idx _ _; rfl
  | cons x rest ih =>
    intro idx hsort hinv
    obtain ⟨t, n, p⟩ := x
    simp only [groupTestsAux, List.map_cons]
    have hadv := advanceIdx_spec classes t classes.length idx (by omega)
      (hinv (t, n, p) (by simp))
    congr 1
    · rw [cursor_name_eq_expected classes t (advanceIdx classes t idx classes.length)
        hs hadv.1 hadv.2.2]
    · apply ih
      · exact (List.pairwise_cons.mp hsort).2
      · intro y hy
        rcases hadv.1 with h0 | ⟨hlt, hofft⟩
        · exact Or.inl h0
        · right
          refine ⟨hlt, ?_⟩
          have ht : t < y.1 := (List.pairwise_cons.mp hsort).1 y hy
          omega

/-- C2 counterexample: in a text where a test declaration precedes the only
class declaration, the entry offset (zero) precedes every recorded class
offset, yet the entry is assigned that later class name rather than the
Unknown sentinel. -/
theorem extract_tests_pre_class_counterexample :
    scanTests "    def test_a(self):\nclass TestFoo:\n    def test_b(self):\n" =
      [(0, "test_a", "self"), (37, "test_b", "self")] ∧
    scanClasses "    def test_a(self):\nclass TestFoo:\n    def test_b(self):\n" =
      [(22, "TestFoo")] ∧
    extract_tests "    def test_a(self):\nclass TestFoo:\n    def test_b(self):\n" =
      [("TestFoo", "test_a", "self"), ("TestFoo", "test_b", "self")] ∧
    (0 : Nat) < 22 ∧ "TestFoo" ≠ "Unknown" := by
  exact ⟨by decide, by decide, by decide, by decide, by decide⟩

/-- C2 amended: each indexed entry receives the name of the last recorded
class whose offset is strictly below the entry offset; an entry that
precedes every recorded class receives the first recorded class name, and
the Unknown sentinel appears exactly when the text has no recorded class
declarations at all. -/
theorem extract_tests_classes_spec (content : String) :
    extract_tests content =
      (scanTests content).map
        (fun x => (expectedClass (scanClasses content) x.1, x.2.1, x.2.2)) := by
  apply groupTestsAux_eq_expected
  · exact scanClassesAux_pairwise _ _ _ _
  · exact scanTestsAux_pairwise _ _ _ _
  · intro x _
    exact Or.inl rfl
